import Mathlib

/-!
Verification development for the adaptive dynamic array in src/jlist
(jlist.h, jlist.cc, ops.cc).  The C++ core is shallowly embedded: the
tagged union of entries becomes an inductive type, machine indices
(Py_ssize_t) become Int, heap allocation failure of box_value becomes an
explicit oracle, and CPython callbacks (rich comparison, truthiness, key
functions) become function parameters.  Reference counting side effects
(Py_INCREF / Py_DECREF) have no observable value-level effect and are not
modelled; where a theorem depends on contents, the contents are tracked
exactly.
-/

namespace JL

/-- Model of PyObject* values that the container can reference.  Doubles
are modelled as opaque atoms (no claim depends on float arithmetic).
pyPunInt / pyPunDbl mark a union field read at the wrong type
(type punning through the entry union), whose C++ behavior is undefined;
no theorem relies on the value produced from a punned read. -/
inductive PyVal where
  | pyInt (n : Int)
  | pyFloat (d : Nat)
  | pyStr (s : String)
  | pyBool (b : Bool)
  | pyNone
  | pyPair (n : Int) (s : String)
  | pyPunInt (n : Int)
  | pyPunDbl (d : Nat)
deriving DecidableEq

/-- The entry union (jlist.h:24-28): one slot holding either a PyObject*
reference, a std::int64_t or a double.  uninit models a default
constructed / not yet assigned union slot. -/
inductive entry where
  | as_ob (v : PyVal)
  | as_int (n : Int)
  | as_double (d : Nat)
  | uninit
deriving DecidableEq

/-- entry_value<PyObject*> read (jlist.h:59-71): reading the as_ob field.
Reading it while the slot holds a primitive is union type punning; the
result is marked with a pun constructor. -/
def entry.ob : entry → PyVal
  | .as_ob v => v
  | .as_int n => .pyPunInt n
  | .as_double d => .pyPunDbl d
  | .uninit => .pyPunInt 0

/-- entry_value<std::int64_t> read.  A punned read (slot does not hold an
int) yields an unspecified value in C++; modelled as 0, never relied on. -/
def entry.int : entry → Int
  | .as_int n => n
  | _ => 0

/-- entry_value<double> read; punned reads modelled as atom 0. -/
def entry.dbl : entry → Nat
  | .as_double d => d
  | _ => 0

/-- The tag enum as used by jlist.cc (single object tag as_ob).
ops.cc uses a refined enum, modelled separately below. -/
inductive entry_tag where
  | as_ob
  | as_int
  | as_double
  | unset
deriving DecidableEq

/-- The container (jlist.h:175-204): a tag and the entry buffer. -/
structure jlist where
  tag : entry_tag
  entries : List entry
deriving DecidableEq

/-- jlist::size (jlist.h:201-203), as a signed count. -/
def jlist.size (l : jlist) : Int := (l.entries.length : Int)

/-- detail::adjust_ix (jlist.cc:60-68): negative indices get the length
added once, then the result is optionally clamped into [0, size]. -/
def adjust_ix (ix size : Int) (clamp : Bool) : Int :=
  let ix := if ix < 0 then ix + size else ix
  if clamp then min (max ix 0) size else ix

/-- box_value(std::int64_t) = PyLong_FromLongLong (jlist.h:93-95); the
ok flag is the allocation oracle (nullptr on failure). -/
def box_value_int (ok : Bool) (n : Int) : Option PyVal :=
  if ok then some (.pyInt n) else none

/-- box_value(double) = PyFloat_FromDouble (jlist.h:97-99). -/
def box_value_dbl (ok : Bool) (d : Nat) : Option PyVal :=
  if ok then some (.pyFloat d) else none

/-- unbox_value<std::int64_t> = PyLong_AsLongLong (jlist.h:104-107).
On a value that is not an int (in particular a punned pointer) CPython
returns -1 with an error set / undefined behavior; modelled as -1 and
never relied on. -/
def unbox_value_int : PyVal → Int
  | .pyInt n => n
  | _ => -1

/-- unbox_value<double> = PyFloat_AsDouble (jlist.h:109-112). -/
def unbox_value_dbl : PyVal → Nat
  | .pyFloat d => d
  | _ => 0

/-- maybe_unbox<std::int64_t> (jlist.h:117-129): exact PyLong only, and
the value must fit in 64 signed bits (overflow probe). -/
def maybe_unbox_int : PyVal → Option Int
  | .pyInt n => if n < -(2 ^ 63) ∨ n > 2 ^ 63 - 1 then none else some n
  | _ => none

/-- maybe_unbox<double> (jlist.h:131-138): exact PyFloat only. -/
def maybe_unbox_dbl : PyVal → Option Nat
  | .pyFloat d => some d
  | _ => none

/-- Conversion loop of box_values<UnboxedType> (jlist.cc:20-30),
instantiated at std::int64_t, written structurally over the suffix still
to convert; ix is the index of the head of that suffix.  boxOk ix tells
whether the allocation for entry ix succeeds.  Returns the updated
buffer, the index at which the loop stopped, and the unwind flag. -/
def box_loop_int (boxOk : Nat → Bool) (ix : Nat) :
    List entry → List entry × Nat × Bool
  | [] => ([], ix, false)
  | e :: rest =>
    match box_value_int (boxOk ix) e.int with
    | none => (e :: rest, ix, true)
    | some v =>
      let r := box_loop_int boxOk (ix + 1) rest
      (.as_ob v :: r.1, r.2.1, r.2.2)

/-- Same loop instantiated at double. -/
def box_loop_dbl (boxOk : Nat → Bool) (ix : Nat) :
    List entry → List entry × Nat × Bool
  | [] => ([], ix, false)
  | e :: rest =>
    match box_value_dbl (boxOk ix) e.dbl with
    | none => (e :: rest, ix, true)
    | some v =>
      let r := box_loop_dbl boxOk (ix + 1) rest
      (.as_ob v :: r.1, r.2.1, r.2.2)

/-- One iteration of the unwind loop body of box_values (jlist.cc:33-38).
The body reads and writes list.entries[ix]: the loop counter unwind_ix is
declared but unused inside the body, so every iteration touches the same
slot ix (the slot whose conversion failed and which still holds the
primitive). -/
def unwind_iter_int (es : List entry) (ix : Nat) : List entry :=
  let boxed := (es.getD ix .uninit).ob
  es.set ix (.as_int (unbox_value_int boxed))

/-- The unwind loop of box_values (jlist.cc:32-39) at std::int64_t:
runs k times (k = stop index), each iteration acting on slot ix. -/
def unwind_loop_int (es : List entry) (ix : Nat) : Nat → List entry
  | 0 => es
  | k + 1 => unwind_loop_int (unwind_iter_int es ix) ix k

def unwind_iter_dbl (es : List entry) (ix : Nat) : List entry :=
  let boxed := (es.getD ix .uninit).ob
  es.set ix (.as_double (unbox_value_dbl boxed))

def unwind_loop_dbl (es : List entry) (ix : Nat) : Nat → List entry
  | 0 => es
  | k + 1 => unwind_loop_dbl (unwind_iter_dbl es ix) ix k

/-- box_values<std::int64_t> (jlist.cc:17-43): convert every entry in
index order; on a failed conversion at index ix, run the unwind loop ix
times; finally set the tag to as_ob unconditionally and report whether
the operation failed. -/
def box_values_int (boxOk : Nat → Bool) (list : jlist) : Bool × jlist :=
  let r := box_loop_int boxOk 0 list.entries
  let es := if r.2.2 then unwind_loop_int r.1 r.2.1 r.2.1 else r.1
  (r.2.2, { tag := .as_ob, entries := es })

/-- box_values<double> (jlist.cc:17-43). -/
def box_values_dbl (boxOk : Nat → Bool) (list : jlist) : Bool × jlist :=
  let r := box_loop_dbl boxOk 0 list.entries
  let es := if r.2.2 then unwind_loop_dbl r.1 r.2.1 r.2.1 else r.1
  (r.2.2, { tag := .as_ob, entries := es })

/-- maybe_box_values (jlist.cc:45-57). -/
def maybe_box_values (boxOk : Nat → Bool) (l : jlist) : Bool × jlist :=
  match l.tag with
  | .unset => (false, l)
  | .as_ob => (false, l)
  | .as_int => box_values_int boxOk l
  | .as_double => box_values_dbl boxOk l

/-- The loop of box_and_extend<T> (jlist.cc:141-151), parameterized by
the boxing of one source entry (the template parameter instantiation).
The loop computes a boxed value for each entry of other, but the body
never appends the boxed value to self.entries: it only returns early
with the unwind flag when a conversion fails.  Consequently the loop
only determines whether any conversion failed. -/
def box_and_extend_loop (boxE : Nat → entry → Option PyVal) (ix : Nat) :
    List entry → Bool
  | [] => false
  | e :: rest =>
    match boxE ix e with
    | none => true
    | some _ => box_and_extend_loop boxE (ix + 1) rest

/-- box_and_extend<T> (jlist.cc:138-154).  original_size is recorded,
the loop runs over other.entries, and on failure the entries appended
since original_size are released and erased - but since the loop never
appended anything, that unwind erases nothing and self is returned
unchanged in every case. -/
def box_and_extend (boxE : Nat → entry → Option PyVal)
    (self other : jlist) : Bool × jlist :=
  let unwind := box_and_extend_loop boxE 0 other.entries
  -- on unwind: Py_DECREF over [original_size, size) and erase of that
  -- range; the range is empty because nothing was appended
  (unwind, self)

/-- box_value(PyObject*) (jlist.h:88-91): Py_INCREF, never fails. -/
def box_value_ob (v : PyVal) : Option PyVal := some v

/-- extend_helper for a jlist rhs (jlist.cc:156-194).  boxOk is the
allocation oracle threaded to every box_value call site.  The unset
other tag with a nonempty buffer is unreachable (invariant 1 of the
container: unset implies empty), modelled by returning self unchanged. -/
def extend_helper (boxOk : Nat → Bool) (self other : jlist) : Bool × jlist :=
  if other.size = 0 then (false, self)
  else if self.tag = other.tag ∨ self.tag = .unset then
    (false, { tag := other.tag, entries := self.entries ++ other.entries })
  else
    let r := maybe_box_values boxOk self
    if r.1 then (true, r.2)
    else
      match other.tag with
      | .as_ob => box_and_extend (fun _ e => box_value_ob e.ob) r.2 other
      | .as_int => box_and_extend (fun ix e => box_value_int (boxOk ix) e.int) r.2 other
      | .as_double => box_and_extend (fun ix e => box_value_dbl (boxOk ix) e.dbl) r.2 other
      | .unset => (false, r.2)

/-- set_loop_prim (jlist.cc:1503-1511): write other[ix] into
self[cur], cur advancing by step.  Raw vector indexing; all writes are
in range in every reachable call (List.set ignores an out of range
index, where the C++ would be undefined). -/
def set_loop_prim (step : Int) : List entry → Int → List entry → List entry
  | self, _, [] => self
  | self, cur, e :: rest => set_loop_prim step (self.set cur.toNat e) (cur + step) rest

/-- set_loop_ob (jlist.cc:1483-1501): identical writes to
set_loop_prim plus reference count maintenance (Py_INCREF of the
incoming values, Py_DECREF of the displaced ones), which has no
value-level effect. -/
def set_loop_ob (step : Int) (self : List entry) (cur : Int)
    (other : List entry) : List entry :=
  set_loop_prim step self cur other

/-- erase of the index range [a, b) from a list. -/
def eraseRange (l : List entry) (a b : Nat) : List entry :=
  l.take a ++ l.drop b

/-- insert count copies of e at position pos. -/
def insertCount (l : List entry) (pos count : Nat) (e : entry) : List entry :=
  l.take pos ++ List.replicate count e ++ l.drop pos

/-- The unit-step length reconciliation of detail::set_slice
(jlist.cc:1546-1568): shrink by erasing the range
[other.size, slicelength) of the buffer, or grow by inserting count
default entries at start (Py_None for the object tag, an uninitialized
union slot otherwise; the inserted slots are overwritten by the
subsequent write loop in every reachable call). -/
def set_slice_resize (self : jlist) (start slicelength osize : Int) : jlist :=
  if slicelength > osize then
    { self with entries := eraseRange self.entries osize.toNat slicelength.toNat }
  else if slicelength > self.size ∨ osize > slicelength then
    let count := max (slicelength - self.size) (osize - slicelength)
    let e : entry := if self.tag = .as_ob then .as_ob .pyNone else .uninit
    { self with entries := insertCount self.entries start.toNat count.toNat e }
  else self

/-- Lines 1546-1596 of detail::set_slice: the part after the aliasing /
tag reconciliation chain.  none models the -1 error return
(LengthMismatch for a non-unit step). -/
def set_slice_core (self : jlist) (start step slicelength : Int)
    (other : jlist) : Option jlist :=
  if step = 1 ∨ slicelength = other.size then
    let self1 := if step = 1 then set_slice_resize self start slicelength other.size else self
    if other.size = 0 then some self1
    else match self1.tag with
      | .as_ob => some { self1 with entries := set_loop_ob step self1.entries start other.entries }
      | .as_int => some { self1 with entries := set_loop_prim step self1.entries start other.entries }
      | .as_double => some { self1 with entries := set_loop_prim step self1.entries start other.entries }
      | .unset => none
  else none

/-- detail::set_slice (jlist.cc:1513-1597) when the rhs IS the lhs
(the pointer equality test on line 1519 succeeds): a fully independent
copy of self is taken via new_jlist before any mutation, and the rest
of the algorithm runs against that copy. -/
def set_slice_self (self : jlist) (start step slicelength : Int) : Option jlist :=
  set_slice_core self start step slicelength ⟨self.tag, self.entries⟩

/-- detail::set_slice (jlist.cc:1513-1597) when the rhs is a distinct
jlist: the tag reconciliation chain of lines 1522-1544, then the core.
Note line 1533 copies other with the tag self has after boxing (as_ob),
so the subsequent maybe_box_values on the copy is a no-op; this is
transcribed faithfully. -/
def set_slice_other (boxOk : Nat → Bool) (self : jlist)
    (start step slicelength : Int) (other : jlist) : Option jlist :=
  if self.size = 0 then
    set_slice_core { self with tag := other.tag } start step slicelength other
  else if other.size = 0 ∧ slicelength = 0 then some self
  else if self.tag ≠ other.tag then
    let r := maybe_box_values boxOk self
    if r.1 then none
    else if other.tag ≠ .as_ob then
      let other1 : jlist := ⟨r.2.tag, other.entries⟩
      let r2 := maybe_box_values boxOk other1
      if r2.1 then none
      else set_slice_core r.2 start step slicelength r2.2
    else set_slice_core r.2 start step slicelength other
  else set_slice_core self start step slicelength other

/-- Error kinds surfaced by the public methods. -/
inductive pyerr where
  | indexError
  | valueError
  | typeError
deriving DecidableEq

/-- detail::get_entry (jlist.cc:130-136): nullptr when ix is outside
[0, size), otherwise the entry at ix. -/
def get_entry (self : jlist) (ix : Int) : Option entry :=
  if ix < 0 ∨ ix ≥ self.size then none
  else some (self.entries.getD ix.toNat .uninit)

/-- Boxing of the outgoing entry in pop and getitem (jlist.cc:934-947
and 1218-1230): the stored object for as_ob, a fresh box for the
primitives (allocation success modelled; failure is unrelated to the
index contract).  The unset arm is unreachable because both callers
check the size first. -/
def box_out (tag : entry_tag) (e : entry) : PyVal :=
  match tag with
  | .as_ob => e.ob
  | .as_int => .pyInt e.int
  | .as_double => .pyFloat e.dbl
  | .unset => .pyNone

/-- methods::pop (jlist.cc:901-951) with an already-converted integer
argument (arg = none models the no-argument call).  The explicit index
is passed to get_entry without any negative-index adjustment. -/
def pop (self : jlist) (arg : Option Int) : Except pyerr (PyVal × jlist) :=
  let ix : Int := match arg with
    | none => self.size - 1
    | some i => i
  if self.size = 0 then .error .indexError
  else match get_entry self ix with
    | none => .error .indexError
    | some e =>
      .ok (box_out self.tag e, { self with entries := self.entries.eraseIdx ix.toNat })

/-- methods::getitem (jlist.cc:1208-1231). -/
def getitem (self : jlist) (ix : Int) : Except pyerr PyVal :=
  match get_entry self ix with
  | none => .error .indexError
  | some e => .ok (box_out self.tag e)

/-- The integer-index path of methods::subscript (jlist.cc:1317-1323):
adjust_ix with clamp = false (negative wraparound, no clamping), then
getitem. -/
def subscript_int (self : jlist) (i : Int) : Except pyerr PyVal :=
  getitem self (adjust_ix i self.size false)

/-- methods::insert (jlist.cc:867-895) on the primitive fast path: the
index object is already an integer and the value stores into the
current representation without boxing (setitem_helper placing the
already-converted entry).  The only failure paths of the source
(non-integer index object, allocation failure while boxing) are outside
this fast path; no path checks the adjusted index for validity. -/
def insert (self : jlist) (ix : Int) (v : entry) : Except pyerr jlist :=
  let index := adjust_ix ix self.size true
  if index ≥ self.size then .ok { self with entries := self.entries ++ [v] }
  else .ok { self with entries := self.entries.insertIdx index.toNat v }

/-- boxing_sum<T> (ops.cc:198-224) on an as_int jlist, starting at
entry index start with accumulator result: every remaining entry is
boxed (a Python int of the same value) and added with PyNumber_Add,
which on Python ints is exact unbounded addition.  The list argument is
the suffix entries[start..]. -/
def boxing_sum_int (l : List Int) (result : Int) : Int :=
  l.foldl (· + ·) result

def i64min : Int := -(2 ^ 63)

def i64max : Int := 2 ^ 63 - 1

/-- The accumulation loop of detail::sum<std::int64_t>::f
(ops.cc:286-302): 64-bit addition with __builtin_add_overflow; on
overflow the exact partial sum is boxed and the reduction continues in
boxing_sum_int from the current entry onward. -/
def sum_int_loop : List Int → Int → Int
  | [], result => result
  | e :: rest, result =>
    let intermediate := result + e
    if intermediate < i64min ∨ intermediate > i64max then
      boxing_sum_int (e :: rest) result
    else sum_int_loop rest intermediate

/-- detail::sum<std::int64_t>::f (ops.cc:276-305): the start object is
probed with maybe_unbox; an exact in-range int seeds the fast loop,
anything else routes the whole reduction through boxing_sum (modelled
here for integer start values; the probe failure condition for an exact
int is exactly the 64-bit range check). -/
def sum_int_f (l : List Int) (start : Int) : Int :=
  if start < i64min ∨ start > i64max then boxing_sum_int l start
  else sum_int_loop l start

/-- Insertion of one element into an already processed list under a
strict-weak-order comparator cmp, walking past every element strictly
below x and stopping at the first element not strictly below x. -/
def stable_insert (cmp : α → α → Bool) (x : α) : List α → List α
  | [] => [x]
  | y :: ys => if cmp y x then y :: stable_insert cmp x ys else x :: y :: ys

/-- Model of std::stable_sort with comparator cmp as used in
detail::sort_with_key and detail::sort_without_key on the object tag
(jlist.cc:996 and 1071): an insertion sort.  For a strict weak ordering
the output of a stable sort is determined uniquely by sortedness plus
stability, so this total function is the observable behavior of
std::stable_sort; sortedness and stability are proved below. -/
def stable_sort (cmp : α → α → Bool) : List α → List α
  | [] => []
  | x :: xs => stable_insert cmp x (stable_sort cmp xs)

/-- The as_ob branch of detail::sort_with_key (jlist.cc:1069-1075) for
a key function that succeeds on every entry and yields an integer key
(the comparator is compare_objects(key a, key b) with Py_LT, which on
int keys is integer less-than).  A raising key or comparison aborts the
sort (lines 1033-1048) and is outside the stability contract. -/
def sort_with_key_ob (key : PyVal → Int) (es : List entry) : List entry :=
  stable_sort (fun a b => key a.ob < key b.ob) es

-- ---------------------------------------------------------------------
-- richcompare (jlist.cc:447-578)

/-- The callbacks and allocation oracles richcompare depends on.  eqOb
models PyObject_RichCompareBool(lhs, rhs, Py_EQ) as a pure function
(none = the comparison raised); intDblEq and dblEq model the C++
numeric comparisons involving a double, whose operands are opaque
atoms here. -/
structure RCOracle where
  eqOb : PyVal → PyVal → Option Bool
  boxIntOk : Int → Bool
  boxDblOk : Nat → Bool
  intDblEq : Int → Nat → Bool
  dblEq : Nat → Nat → Bool

/-- The as_ob/as_ob loop of richcompare (jlist.cc:532-543).  isEq is
true for Py_EQ and false for Py_NE; on the first mismatching pair the
loop returns the Py_NE polarity, at the end the Py_EQ polarity.  Both
lists are consumed in lockstep; the loop bound in the source is
self.size(), and both callers have checked the sizes are equal. -/
def ob_ob_loop (eqOb : PyVal → PyVal → Option Bool) (isEq : Bool) :
    List entry → List entry → Option Bool
  | [], _ => some isEq
  | _ :: _, [] => some isEq
  | e :: es, f :: fs =>
    match eqOb e.ob f.ob with
    | none => none
    | some true => ob_ob_loop eqOb isEq es fs
    | some false => some (!isEq)

/-- box_lhs_loop (jlist.cc:467-488): the lhs is primitive-tagged and
each of its entries is boxed individually (boxE, one box_value call per
iteration) before the generic comparison with the already-boxed rhs
entry; a failed allocation or raising comparison aborts with none. -/
def box_lhs_loop (boxE : entry → Option PyVal)
    (eqOb : PyVal → PyVal → Option Bool) (isEq : Bool) :
    List entry → List entry → Option Bool
  | [], _ => some isEq
  | _ :: _, [] => some isEq
  | e :: es, f :: fs =>
    match boxE e with
    | none => none
    | some lhs =>
      match eqOb lhs f.ob with
      | none => none
      | some true => box_lhs_loop boxE eqOb isEq es fs
      | some false => some (!isEq)

/-- box_rhs_loop (jlist.cc:490-511), mirror image of box_lhs_loop. -/
def box_rhs_loop (boxE : entry → Option PyVal)
    (eqOb : PyVal → PyVal → Option Bool) (isEq : Bool) :
    List entry → List entry → Option Bool
  | [], _ => some isEq
  | _ :: _, [] => some isEq
  | e :: es, f :: fs =>
    match boxE f with
    | none => none
    | some rhs =>
      match eqOb e.ob rhs with
      | none => none
      | some true => box_rhs_loop boxE eqOb isEq es fs
      | some false => some (!isEq)

/-- prim_loop (jlist.cc:513-526): raw numeric comparison of two
primitive-tagged sides, no callback and no failure. -/
def prim_loop (eqf : entry → entry → Bool) (isEq : Bool) :
    List entry → List entry → Option Bool
  | [], _ => some isEq
  | _ :: _, [] => some isEq
  | e :: es, f :: fs =>
    if eqf e f then prim_loop eqf isEq es fs else some (!isEq)

/-- methods::richcompare (jlist.cc:447-578) restricted to Py_EQ / Py_NE
on two jlists (other operators and operand types return NotImplemented
before this code runs).  The result is paired with the two containers
as the caller sees them after the call: the source performs no store to
either container, so every exit returns them exactly as given.  The
unreachable switch arms (unset tag on a nonempty list) yield none. -/
def richcompare (self other : jlist) (isEq : Bool) (o : RCOracle) :
    Option Bool × jlist × jlist :=
  if self.size ≠ other.size then (some (!isEq), self, other)
  else if self.size = 0 then (some isEq, self, other)
  else
    let r : Option Bool :=
      match self.tag, other.tag with
      | .as_ob, .as_ob => ob_ob_loop o.eqOb isEq self.entries other.entries
      | .as_ob, .as_int =>
        box_rhs_loop (fun f => box_value_int (o.boxIntOk f.int) f.int) o.eqOb isEq
          self.entries other.entries
      | .as_ob, .as_double =>
        box_rhs_loop (fun f => box_value_dbl (o.boxDblOk f.dbl) f.dbl) o.eqOb isEq
          self.entries other.entries
      | .as_int, .as_ob =>
        box_lhs_loop (fun e => box_value_int (o.boxIntOk e.int) e.int) o.eqOb isEq
          self.entries other.entries
      | .as_int, .as_int =>
        prim_loop (fun e f => e.int == f.int) isEq self.entries other.entries
      | .as_int, .as_double =>
        prim_loop (fun e f => o.intDblEq e.int f.dbl) isEq self.entries other.entries
      | .as_double, .as_ob =>
        box_lhs_loop (fun e => box_value_dbl (o.boxDblOk e.dbl) e.dbl) o.eqOb isEq
          self.entries other.entries
      | .as_double, .as_int =>
        prim_loop (fun e f => o.intDblEq f.int e.dbl) isEq self.entries other.entries
      | .as_double, .as_double =>
        prim_loop (fun e f => o.dblEq e.dbl f.dbl) isEq self.entries other.entries
      | _, _ => none
    (r, self, other)

-- ---------------------------------------------------------------------
-- index_helper (jlist.cc:710-790)

/-- A generic-equality callback (PyObject_RichCompareBool against the
needle) that may re-enter the interpreter and mutate the scanned
container: it receives the current entry buffer and returns the
comparison outcome (none = raised) together with the buffer as it
stands after any re-entrant mutation. -/
abbrev CmpM := PyVal → List entry → Option Bool × List entry

/-- The boxing scan loop of detail::index_helper (jlist.cc:721-740),
instrumented: alongside the result (-2 error, -1 not found, otherwise
the found index) and the final buffer, it returns the log of raw entry
reads, each recorded as (index read, buffer length at the moment of the
read).  The loop condition re-reads the live length on every iteration
(ix < stop && ix < self.size()).  boxE boxes the current entry (one
box_value call per iteration).  The fuel only bounds the number of
iterations; ix strictly increases toward the fixed stop, so fuel =
stop - start makes the recursion total without changing any iteration. -/
def boxing_scan (boxE : entry → Option PyVal) (cmp : CmpM) (stop : Nat) :
    Nat → Nat → List entry → Int × List entry × List (Nat × Nat)
  | 0, _, es => (-1, es, [])
  | fuel + 1, ix, es =>
    if ix < stop ∧ ix < es.length then
      let rec1 : Nat × Nat := (ix, es.length)
      match boxE (es.getD ix .uninit) with
      | none => (-2, es, [rec1])
      | some boxed =>
        match cmp boxed es with
        | (none, es1) => (-2, es1, [rec1])
        | (some true, es1) => ((ix : Int), es1, [rec1])
        | (some false, es1) =>
          let r := boxing_scan boxE cmp stop fuel (ix + 1) es1
          (r.1, r.2.1, rec1 :: r.2.2)
    else (-1, es, [])

/-- The as_ob scan loop of index_helper (jlist.cc:744-754), same
instrumentation; the entry is already an object so no boxing occurs. -/
def ob_scan (cmp : CmpM) (stop : Nat) :
    Nat → Nat → List entry → Int × List entry × List (Nat × Nat)
  | 0, _, es => (-1, es, [])
  | fuel + 1, ix, es =>
    if ix < stop ∧ ix < es.length then
      let rec1 : Nat × Nat := (ix, es.length)
      match cmp (es.getD ix .uninit).ob es with
      | (none, es1) => (-2, es1, [rec1])
      | (some true, es1) => ((ix : Int), es1, [rec1])
      | (some false, es1) =>
        let r := ob_scan cmp stop fuel (ix + 1) es1
        (r.1, r.2.1, rec1 :: r.2.2)
    else (-1, es, [])

/-- The exact-match primitive scan of index_helper (jlist.cc:762-767 and
777-782): no callback can run, so the buffer cannot change mid-scan;
the loop bound is the stop captured after clamping.  Instrumented with
the same read log. -/
def prim_scan (test : entry → Bool) (es : List entry) (stop : Nat) :
    Nat → Nat → Int × List (Nat × Nat)
  | 0, _ => (-1, [])
  | fuel + 1, ix =>
    if ix < stop then
      let rec1 : Nat × Nat := (ix, es.length)
      if test (es.getD ix .uninit) then ((ix : Int), [rec1])
      else
        let r := prim_scan test es stop fuel (ix + 1)
        (r.1, rec1 :: r.2)
    else (-1, [])

/-- detail::index_helper (jlist.cc:710-790): clamp start and stop into
[0, size] via adjust_ix, then dispatch on the tag; an as_int (as_double)
container scanned for an exactly-unboxable needle uses the pure
primitive loop, any other needle goes through the boxing loop whose
comparison can re-enter.  Returns (result, final buffer, read log).
remove and contains (jlist.cc:957-973 and 1256-1264) delegate here. -/
def index_helper (boxOk : Bool) (cmp : CmpM) (self : jlist)
    (value : PyVal) (start stop : Int) :
    Int × List entry × List (Nat × Nat) :=
  if self.size = 0 then (-1, self.entries, [])
  else
    let start1 := (adjust_ix start self.size true).toNat
    let stop1 := (adjust_ix stop self.size true).toNat
    match self.tag with
    | .as_ob => ob_scan cmp stop1 (stop1 - start1) start1 self.entries
    | .as_int =>
      match maybe_unbox_int value with
      | none =>
        boxing_scan (fun e => box_value_int boxOk e.int) cmp stop1
          (stop1 - start1) start1 self.entries
      | some rhs =>
        let r := prim_scan (fun e => e.int == rhs) self.entries stop1
          (stop1 - start1) start1
        (r.1, self.entries, r.2)
    | .as_double =>
      match maybe_unbox_dbl value with
      | none =>
        boxing_scan (fun e => box_value_dbl boxOk e.dbl) cmp stop1
          (stop1 - start1) start1 self.entries
      | some rhs =>
        let r := prim_scan (fun e => e.dbl == rhs) self.entries stop1
          (stop1 - start1) start1
        (r.1, self.entries, r.2)
    | .unset => (-1, self.entries, [])

-- ---------------------------------------------------------------------
-- ops.cc model (any/all, sum wrappers)

/-- The tag enum as declared in jlist.h:12-18 and used by ops.cc, with
the object representation split into homogeneous and heterogeneous. -/
inductive ops_tag where
  | as_homogeneous_ob
  | as_heterogeneous_ob
  | as_int
  | as_double
  | unset
deriving DecidableEq

/-- The container as ops.cc sees it. -/
structure ops_jlist where
  tag : ops_tag
  entries : List entry
deriving DecidableEq

/-- The truthiness loop of any_all<any, PyObject*> (ops.cc:38-52),
instrumented with the number of truthiness evaluations performed.
anyb is the template parameter (true = any, false = all). -/
def any_all_ob_loop (anyb : Bool) (is_true : PyVal → Option Bool) :
    List entry → Nat → Option Bool × Nat
  | [], n => (some (!anyb), n)
  | e :: rest, n =>
    match is_true e.ob with
    | none => (none, n + 1)
    | some r =>
      if anyb ∧ r then (some true, n + 1)
      else if ¬anyb ∧ ¬r then (some false, n + 1)
      else any_all_ob_loop anyb is_true rest (n + 1)

/-- any_all<any, std::int64_t>::f (ops.cc:98-112): truthiness of an int
entry is nonzero-ness, evaluated inline with no callback. -/
def any_all_int_loop (anyb : Bool) : List entry → Bool
  | [] => !anyb
  | e :: rest =>
    if anyb ∧ e.int ≠ 0 then true
    else if ¬anyb ∧ e.int = 0 then false
    else any_all_int_loop anyb rest

/-- any_all<any, double>::f (ops.cc:115-129); double truthiness is an
opaque predicate on the double atoms. -/
def any_all_dbl_loop (anyb : Bool) (dblTrue : Nat → Bool) : List entry → Bool
  | [] => !anyb
  | e :: rest =>
    if anyb ∧ dblTrue e.dbl then true
    else if ¬anyb ∧ ¬dblTrue e.dbl then false
    else any_all_dbl_loop anyb dblTrue rest

/-- any_all<any, PyObject*>::homogeneous (ops.cc:59-94): empty returns
true outright; otherwise the truthiness callback chosen from the stored
homogeneous type is applied by the shared loop.  The per-type selection
(bool pointer compare, None shortcut, nb_bool, mp_length, sq_length,
or the always-true fallback) is summarized by the is_true parameter of
the model plus the two shortcut flags; every selected variant either
evaluates one truthiness per scanned entry or returns without scanning. -/
def any_all_homogeneous (anyb : Bool) (noneType alwaysTrue : Bool)
    (is_true : PyVal → Option Bool) (es : List entry) : Option Bool × Nat :=
  if es.length = 0 then (some true, 0)
  else if noneType then (some false, 0)
  else if alwaysTrue then (some true, 0)
  else any_all_ob_loop anyb is_true es 0

/-- ops::any_all<any> (ops.cc:132-173) on an ops_jlist operand: the
empty container answers !any before any dispatch, so no truthiness
callback can run; otherwise the per-tag loop runs.  The result is
paired with the number of truthiness evaluations. -/
def ops_any_all (anyb : Bool) (self : ops_jlist) (noneType alwaysTrue : Bool)
    (is_true : PyVal → Option Bool) (dblTrue : Nat → Bool) :
    Option Bool × Nat :=
  if self.entries.length = 0 then (some (!anyb), 0)
  else
    match self.tag with
    | .as_homogeneous_ob => any_all_homogeneous anyb noneType alwaysTrue is_true self.entries
    | .as_heterogeneous_ob => any_all_ob_loop anyb is_true self.entries 0
    | .as_int => (some (any_all_int_loop anyb self.entries), 0)
    | .as_double => (some (any_all_dbl_loop anyb dblTrue self.entries), 0)
    | .unset => (none, 0)

/-- Model of the Python key function operator.itemgetter(0) on pair
values: the first component of a pair, used by the sort stability
example. -/
def pairFst : PyVal → Int
  | .pyPair n _ => n
  | _ => 0

-- =====================================================================
-- Theorems
-- =====================================================================

/-- Folding integer addition from a seed equals the seed plus the sum. -/
theorem foldl_add_eq (l : List Int) (r : Int) : l.foldl (· + ·) r = r + l.sum := by
  induction l generalizing r with
  | nil => simp
  | cons x xs ih => simp only [List.foldl_cons, List.sum_cons, ih]; ring

/-- The overflow-checked loop is exact for every seed: both the
non-overflow branch and the boxing fallback compute the seed plus the
suffix sum. -/
theorem sum_int_loop_eq (l : List Int) (r : Int) : sum_int_loop l r = r + l.sum := by
  induction l generalizing r with
  | nil => simp [sum_int_loop]
  | cons e rest ih =>
    unfold sum_int_loop
    dsimp only
    split
    · simp only [boxing_sum_int, foldl_add_eq]
    · rw [ih]; simp only [List.sum_cons]; ring

/-- C4: for every Int64-tagged container, sum returns exactly the true
mathematical sum of the entries plus the start value; on 64-bit signed
overflow the reduction continues with an unbounded accumulator seeded
with the exact partial sum, never wrapping; in particular summing
[9223372036854775807, 1] yields exactly 9223372036854775808. -/
theorem c4_sum_int64_exact :
    (∀ (l : List Int) (start : Int), sum_int_f l start = start + l.sum) ∧
    sum_int_f [9223372036854775807, 1] 0 = 9223372036854775808 := by
  constructor
  · intro l s
    unfold sum_int_f
    split
    · simp only [boxing_sum_int, foldl_add_eq]
    · exact sum_int_loop_eq l s
  · decide

/-- C9: on the empty container, with any tag and any truthiness
callbacks, the any aggregation returns False and the all aggregation
returns True, and zero truthiness evaluations are performed. -/
theorem c9_any_all_empty :
    ∀ (tag : ops_tag) (noneType alwaysTrue : Bool)
      (is_true : PyVal → Option Bool) (dblTrue : Nat → Bool),
      ops_any_all true ⟨tag, []⟩ noneType alwaysTrue is_true dblTrue = (some false, 0) ∧
      ops_any_all false ⟨tag, []⟩ noneType alwaysTrue is_true dblTrue = (some true, 0) := by
  intro tag nT aT f g
  exact ⟨rfl, rfl⟩

/-- C7: the equality comparison leaves both containers (tags and stored
entries) unchanged for every combination of tags; in the mixed cases
the primitive side is boxed one entry per iteration inside the loop,
and no branch of richcompare stores into either container. -/
theorem c7_richcompare_frame :
    ∀ (self other : jlist) (isEq : Bool) (o : RCOracle),
      (richcompare self other isEq o).2.1 = self ∧
      (richcompare self other isEq o).2.2 = other ∧
      (richcompare self other isEq o).2.1.tag = self.tag ∧
      (richcompare self other isEq o).2.2.tag = other.tag := by
  intro s t e o
  unfold richcompare
  split
  · exact ⟨rfl, rfl, rfl, rfl⟩
  · split
    · exact ⟨rfl, rfl, rfl, rfl⟩
    · exact ⟨rfl, rfl, rfl, rfl⟩

/-- C1: a boxing transition that fails at entry 1 of the Int64
container [5, 6] does not restore the pre-call contents: the unwind
loop body indexes entries[ix] instead of entries[unwind_ix], so the
already boxed entry 0 is left boxed and the failing slot is clobbered
with the result of unboxing its own punned bits, while the call still
reports the failure. -/
theorem c1_box_values_failed_rollback :
    box_values_int (fun i => decide (i = 0)) ⟨.as_int, [.as_int 5, .as_int 6]⟩ =
      (true, ⟨.as_ob, [.as_ob (.pyInt 5), .as_int (-1)]⟩) ∧
    [entry.as_ob (.pyInt 5), entry.as_int (-1)] ≠ [entry.as_int 5, entry.as_int 6] := by
  decide

/-- C2: extending the Int64 container [1] with the boxed container
[str x] reports success but appends nothing: self is boxed and then
box_and_extend boxes each rhs entry without ever appending it, so the
resulting length is 1, not the sum of the operand lengths 2. -/
theorem c2_extend_mixed_tags_loses_entries :
    extend_helper (fun _ => true) ⟨.as_int, [.as_int 1]⟩ ⟨.as_ob, [.as_ob (.pyStr "x")]⟩ =
      (false, ⟨.as_ob, [.as_ob (.pyInt 1)]⟩) ∧
    (extend_helper (fun _ => true) ⟨.as_int, [.as_int 1]⟩
        ⟨.as_ob, [.as_ob (.pyStr "x")]⟩).2.entries.length ≠
      ([entry.as_int 1].length + [entry.as_ob (.pyStr "x")].length) := by
  decide

/-- C5: pop with an explicit index performs no negative-index
adjustment, so pop(-1) on the nonempty Int64 container [10, 20] raises
IndexError instead of removing and returning the last element, while
the subscript path adjusts -1 to the last element and the no-argument
pop does return the last element. -/
theorem c5_pop_negative_index_rejected :
    pop ⟨.as_int, [.as_int 10, .as_int 20]⟩ (some (-1)) = .error .indexError ∧
    subscript_int ⟨.as_int, [.as_int 10, .as_int 20]⟩ (-1) = .ok (.pyInt 20) ∧
    pop ⟨.as_int, [.as_int 10, .as_int 20]⟩ none =
      .ok (.pyInt 20, ⟨.as_int, [.as_int 10]⟩) :=
  ⟨rfl, rfl, rfl⟩

/-- The size of a container is zero exactly when its buffer is empty. -/
theorem size_eq_zero_iff (l : jlist) : l.size = 0 ↔ l.entries = [] := by
  simp [jlist.size, List.length_eq_zero]

/-- C3: the Int64 container c = [1,2,3,4,5] under the unit-step slice
self-assignment c[1:4] = c becomes [1,1,2,3,4,5,5]; in general, slice
assignment whose source is the destination itself runs against the
fully independent copy taken on entry (jlist.cc:1519-1521) and so
coincides with slice assignment from a distinct container holding the
same contents. -/
theorem c3_set_slice_self_assignment :
    set_slice_self ⟨.as_int, [.as_int 1, .as_int 2, .as_int 3, .as_int 4, .as_int 5]⟩ 1 1 3 =
      some ⟨.as_int, [.as_int 1, .as_int 1, .as_int 2, .as_int 3, .as_int 4,
        .as_int 5, .as_int 5]⟩ ∧
    ∀ (boxOk : Nat → Bool) (self : jlist) (start step slicelength : Int),
      self.entries ≠ [] →
      set_slice_self self start step slicelength =
        set_slice_other boxOk self start step slicelength ⟨self.tag, self.entries⟩ := by
  constructor
  · decide
  · intro boxOk self start step sl h
    have hsz : ¬ self.size = 0 := fun hc => h ((size_eq_zero_iff self).mp hc)
    unfold set_slice_self set_slice_other
    rw [if_neg hsz, if_neg (fun hc => hsz hc.1), if_neg (fun hc => hc rfl)]

/-- Witness for C3: the general copy-semantics equation applied to the
concrete container [1,2,3,4,5]. -/
theorem c3_set_slice_self_assignment_witness :
    set_slice_self ⟨.as_int, [.as_int 1, .as_int 2, .as_int 3, .as_int 4, .as_int 5]⟩ 1 1 3 =
      set_slice_other (fun _ => true)
        ⟨.as_int, [.as_int 1, .as_int 2, .as_int 3, .as_int 4, .as_int 5]⟩ 1 1 3
        ⟨.as_int, [.as_int 1, .as_int 2, .as_int 3, .as_int 4, .as_int 5]⟩ :=
  c3_set_slice_self_assignment.2 (fun _ => true)
    ⟨.as_int, [.as_int 1, .as_int 2, .as_int 3, .as_int 4, .as_int 5]⟩ 1 1 3 (by decide)

/-- adjust_ix with clamping lands in [0, size]. -/
theorem adjust_ix_clamp_bounds (ix n : Int) (h : 0 ≤ n) :
    0 ≤ adjust_ix ix n true ∧ adjust_ix ix n true ≤ n := by
  have he : adjust_ix ix n true = min (max (if ix < 0 then ix + n else ix) 0) n := rfl
  rw [he]
  exact ⟨le_min (le_max_right _ _) h, min_le_right _ _⟩

/-- C10: insert never raises an index error: the incoming integer index
is adjusted by adding the length when negative, clamped into [0, len],
and the value always lands at the clamped position; an adjusted index
at or beyond the length appends at the end.  The result length always
grows by one. -/
theorem c10_insert_clamps :
    ∀ (self : jlist) (ix : Int) (v : entry),
      insert self ix v =
        .ok { self with entries :=
          self.entries.insertIdx (adjust_ix ix self.size true).toNat v } ∧
      (insert self ix v).toOption.map (fun l => l.entries.length) =
        some (self.entries.length + 1) ∧
      (adjust_ix ix self.size true ≥ self.size →
        insert self ix v = .ok { self with entries := self.entries ++ [v] }) := by
  intro self ix v
  have h0 : (0 : Int) ≤ self.size := Int.natCast_nonneg _
  have hb := adjust_ix_clamp_bounds ix self.size h0
  unfold insert
  dsimp only
  split
  case isTrue hge =>
    have ha : adjust_ix ix self.size true = self.size := le_antisymm hb.2 hge
    have hn : (adjust_ix ix self.size true).toNat = self.entries.length := by
      rw [ha]; simp [jlist.size]
    refine ⟨?_, ?_, fun _ => rfl⟩
    · rw [hn, List.insertIdx_length_self]
    · simp [Except.toOption]
  case isFalse hlt =>
    have hle : (adjust_ix ix self.size true).toNat ≤ self.entries.length := by
      have h2 := hb.2
      simp only [jlist.size] at h2 ⊢
      omega
    refine ⟨rfl, ?_, fun hge => absurd hge hlt⟩
    simp [Except.toOption, List.length_insertIdx _ _ hle]

/-- Witness for C10: inserting at index 5 of the one-element container
[7] appends 8 at the end. -/
theorem c10_insert_clamps_witness :
    insert ⟨.as_int, [.as_int 7]⟩ 5 (.as_int 8) =
      .ok { (⟨.as_int, [.as_int 7]⟩ : jlist) with
        entries := [entry.as_int 7] ++ [entry.as_int 8] } :=
  (c10_insert_clamps ⟨.as_int, [.as_int 7]⟩ 5 (.as_int 8)).2.2 (by decide)

/-- Membership in a stable insertion is membership in the tail or
being the inserted element. -/
theorem mem_stable_insert (cmp : α → α → Bool) (x z : α) :
    ∀ l : List α, z ∈ stable_insert cmp x l ↔ z = x ∨ z ∈ l := by
  intro l
  induction l with
  | nil => simp [stable_insert]
  | cons y ys ih =>
    by_cases hc : cmp y x = true
    · rw [stable_insert, if_pos hc]
      simp only [List.mem_cons, ih]
      tauto
    · rw [stable_insert, if_neg hc]
      simp only [List.mem_cons]

/-- The insertion-sort model permutes its input: it is a sort. -/
theorem stable_sort_perm (cmp : α → α → Bool) :
    ∀ l : List α, List.Perm (stable_sort cmp l) l := by
  have hins : ∀ (x : α) (l : List α),
      List.Perm (stable_insert cmp x l) (x :: l) := by
    intro x l
    induction l with
    | nil => simp [stable_insert]
    | cons y ys ih =>
      by_cases hc : cmp y x = true
      · simp only [stable_insert, hc, if_true]
        exact (List.Perm.cons y ih).trans (List.Perm.swap x y ys)
      · simp [stable_insert, hc]
  intro l
  induction l with
  | nil => simp [stable_sort]
  | cons x xs ih =>
    exact (hins x (stable_sort cmp xs)).trans (List.Perm.cons x ih)

/-- The insertion-sort model sorts by key: its output is pairwise
nondecreasing in the key, so together with stable_sort_perm and the
filter stability below it satisfies exactly the specification of
std::stable_sort under the key comparator. -/
theorem stable_sort_sorted_by_key (key : α → Int) :
    ∀ l : List α,
      (stable_sort (fun a b => decide (key a < key b)) l).Pairwise
        (fun a b => key a ≤ key b) := by
  have hins : ∀ (x : α) (l : List α),
      l.Pairwise (fun a b => key a ≤ key b) →
      (stable_insert (fun a b => decide (key a < key b)) x l).Pairwise
        (fun a b => key a ≤ key b) := by
    intro x l
    induction l with
    | nil => simp [stable_insert]
    | cons y ys ih =>
      intro h
      have h1 := (List.pairwise_cons.mp h).1
      have h2 := (List.pairwise_cons.mp h).2
      by_cases hc : key y < key x
      · rw [stable_insert, if_pos (decide_eq_true hc)]
        rw [List.pairwise_cons]
        constructor
        · intro z hz
          rcases (mem_stable_insert _ x z ys).mp hz with hzx | hzy
          · subst hzx; omega
          · exact h1 z hzy
        · exact ih h2
      · rw [stable_insert, if_neg (by simpa using hc)]
        rw [List.pairwise_cons]
        refine ⟨?_, h⟩
        intro z hz
        rcases List.mem_cons.mp hz with hzy | hzys
        · subst hzy; omega
        · exact le_trans (by omega : key x ≤ key y) (h1 z hzys)
  intro l
  induction l with
  | nil => simp [stable_sort]
  | cons x xs ih => exact hins x (stable_sort _ xs) ih

/-- Inserting x into l keeps the p-selected subsequence intact, provided
nothing x is inserted past can satisfy p whenever x does: x lands at
the front of the selected subsequence if selected, and is invisible to
it otherwise. -/
theorem filter_stable_insert (cmp : α → α → Bool) (p : α → Bool) (x : α)
    (hlt : p x = true → ∀ y, cmp y x = true → p y = false) :
    ∀ l : List α, (stable_insert cmp x l).filter p =
      if p x then x :: l.filter p else l.filter p := by
  intro l
  induction l with
  | nil =>
    cases hpx : p x <;> simp [stable_insert, List.filter, hpx]
  | cons y ys ih =>
    by_cases hc : cmp y x = true
    · cases hpx : p x with
      | true =>
        have hpy : p y = false := hlt hpx y hc
        simp [stable_insert, hc, List.filter_cons, hpy, ih, hpx]
      | false =>
        simp only [stable_insert, hc, if_true, List.filter_cons, ih, hpx, if_false]
        cases hpy : p y <;> simp [hpy]
    · simp only [Bool.not_eq_true] at hc
      cases hpx : p x <;>
        simp [stable_insert, hc, List.filter_cons, hpx]

/-- Stability of the insertion-sort model through a filter: the
subsequence selected by p is untouched by sorting whenever the
comparator never ranks a selected element strictly below an unselected
one it could be exchanged with. -/
theorem filter_stable_sort (cmp : α → α → Bool) (p : α → Bool)
    (h : ∀ x, p x = true → ∀ y, cmp y x = true → p y = false) :
    ∀ l : List α, (stable_sort cmp l).filter p = l.filter p := by
  intro l
  induction l with
  | nil => rfl
  | cons x xs ih =>
    rw [stable_sort, filter_stable_insert cmp p x (h x), ih]
    cases hpx : p x <;> simp [List.filter_cons, hpx]

/-- C6: sorting a Boxed container with a key is stable: two entries
whose keys compare neither way keep their relative order (as a pair
sublist), and the example [(1,a),(1,b),(0,c)] keyed by the first
component sorts to [(0,c),(1,a),(1,b)]. -/
theorem c6_sort_with_key_stable :
    (∀ (key : PyVal → Int) (l : List entry) (a b : entry),
      ¬ key a.ob < key b.ob → ¬ key b.ob < key a.ob →
      List.Sublist [a, b] l → List.Sublist [a, b] (sort_with_key_ob key l)) ∧
    sort_with_key_ob pairFst
      [.as_ob (.pyPair 1 "a"), .as_ob (.pyPair 1 "b"), .as_ob (.pyPair 0 "c")] =
      [.as_ob (.pyPair 0 "c"), .as_ob (.pyPair 1 "a"), .as_ob (.pyPair 1 "b")] := by
  constructor
  · intro key l a b hab hba hsub
    have hk : key b.ob = key a.ob := le_antisymm (not_lt.mp hab) (not_lt.mp hba)
    have hpa : (fun e : entry => decide (key e.ob = key a.ob)) a = true := by simp
    have hpb : (fun e : entry => decide (key e.ob = key a.ob)) b = true := by simp [hk]
    have hcond : ∀ x, (fun e : entry => decide (key e.ob = key a.ob)) x = true →
        ∀ y, (fun u v : entry => decide (key u.ob < key v.ob)) y x = true →
          (fun e : entry => decide (key e.ob = key a.ob)) y = false := by
      intro x hx y hy
      simp only [decide_eq_true_eq] at hx hy
      simp only [decide_eq_false_iff_not]
      omega
    have h1 : List.Sublist ([a, b].filter (fun e : entry => decide (key e.ob = key a.ob)))
        (l.filter (fun e : entry => decide (key e.ob = key a.ob))) :=
      hsub.filter _
    have h2 : [a, b].filter (fun e : entry => decide (key e.ob = key a.ob)) = [a, b] := by
      simp [List.filter_cons, hpa, hpb]
    have h3 : (sort_with_key_ob key l).filter (fun e : entry => decide (key e.ob = key a.ob)) =
        l.filter (fun e : entry => decide (key e.ob = key a.ob)) :=
      filter_stable_sort _ _ hcond l
    rw [h2, ← h3] at h1
    exact h1.trans (List.filter_sublist _)
  · decide

/-- Witness for C6: the tied pair ((1,a), (1,b)) of the example keeps
its order through the sort. -/
theorem c6_sort_with_key_stable_witness :
    List.Sublist [entry.as_ob (.pyPair 1 "a"), entry.as_ob (.pyPair 1 "b")]
      (sort_with_key_ob pairFst
        [.as_ob (.pyPair 1 "a"), .as_ob (.pyPair 1 "b"), .as_ob (.pyPair 0 "c")]) :=
  c6_sort_with_key_stable.1 pairFst
    [.as_ob (.pyPair 1 "a"), .as_ob (.pyPair 1 "b"), .as_ob (.pyPair 0 "c")]
    (.as_ob (.pyPair 1 "a")) (.as_ob (.pyPair 1 "b"))
    (by decide) (by decide) (by decide)

/-- Every raw entry read performed by the boxing scan happens strictly
below the buffer length recorded live at the same iteration, for every
re-entrant mutation behavior of the comparison callback. -/
theorem boxing_scan_log_bounded (boxE : entry → Option PyVal) (cmp : CmpM)
    (stop : Nat) :
    ∀ (fuel ix : Nat) (es : List entry),
      ((boxing_scan boxE cmp stop fuel ix es).2.2).all
        (fun r => decide (r.1 < r.2)) = true := by
  intro fuel
  induction fuel with
  | zero => intro ix es; rfl
  | succ n ih =>
    intro ix es
    unfold boxing_scan
    split
    case isTrue h =>
      dsimp only
      cases hbe : boxE (es.getD ix .uninit) with
      | none => simp [h.2]
      | some boxed =>
        rcases hc : cmp boxed es with ⟨o, es1⟩
        cases o with
        | none => simp [hc, h.2]
        | some b =>
          cases b with
          | true => simp [hc, h.2]
          | false => simp [hc, h.2, ih]
    case isFalse h => rfl

/-- Same bound for the object-tag scan. -/
theorem ob_scan_log_bounded (cmp : CmpM) (stop : Nat) :
    ∀ (fuel ix : Nat) (es : List entry),
      ((ob_scan cmp stop fuel ix es).2.2).all
        (fun r => decide (r.1 < r.2)) = true := by
  intro fuel
  induction fuel with
  | zero => intro ix es; rfl
  | succ n ih =>
    intro ix es
    unfold ob_scan
    split
    case isTrue h =>
      dsimp only
      rcases hc : cmp (es.getD ix .uninit).ob es with ⟨o, es1⟩
      cases o with
      | none => simp [hc, h.2]
      | some b =>
        cases b with
        | true => simp [hc, h.2]
        | false => simp [hc, h.2, ih]
    case isFalse h => rfl

/-- Same bound for the exact-match primitive scan, whose loop bound is
the stop clamped into [0, size] at entry (the buffer cannot change:
no callback runs). -/
theorem prim_scan_log_bounded (test : entry → Bool) (es : List entry)
    (stop : Nat) (hstop : stop ≤ es.length) :
    ∀ (fuel ix : Nat),
      ((prim_scan test es stop fuel ix).2).all
        (fun r => decide (r.1 < r.2)) = true := by
  intro fuel
  induction fuel with
  | zero => intro ix; rfl
  | succ n ih =>
    intro ix
    unfold prim_scan
    split
    case isTrue h =>
      have hlt : ix < es.length := lt_of_lt_of_le h hstop
      dsimp only
      split
      · simp [hlt]
      · simp [hlt, ih]
    case isFalse h => rfl

/-- C8: every linear search through index_helper (also reached by
remove and contains) only reads entries at indices strictly below the
container length current at the moment of the read, for every needle,
every start/stop bound and every re-entrant mutation the
generic-equality callback performs, because the scan bound is re-read
from the live length on each iteration of the callback loops and the
callback-free loops run against an immutable buffer with a clamped
bound. -/
theorem c8_index_helper_reads_in_bounds :
    ∀ (boxOk : Bool) (cmp : CmpM) (self : jlist) (value : PyVal)
      (start stop : Int),
      ((index_helper boxOk cmp self value start stop).2.2).all
        (fun r => decide (r.1 < r.2)) = true := by
  intro boxOk cmp self value start stop
  rcases self with ⟨tag, es⟩
  have h0 : (0 : Int) ≤ jlist.size ⟨tag, es⟩ := Int.natCast_nonneg _
  have hstop : (adjust_ix stop (jlist.size ⟨tag, es⟩) true).toNat ≤ es.length := by
    have h2 := (adjust_ix_clamp_bounds stop (jlist.size ⟨tag, es⟩) h0).2
    simp only [jlist.size] at h2 ⊢
    omega
  unfold index_helper
  split
  · rfl
  · dsimp only
    cases tag with
    | as_ob => exact ob_scan_log_bounded cmp _ _ _ es
    | as_int =>
      cases maybe_unbox_int value with
      | none => exact boxing_scan_log_bounded _ cmp _ _ _ es
      | some rhs => exact prim_scan_log_bounded _ es _ hstop _ _
    | as_double =>
      cases maybe_unbox_dbl value with
      | none => exact boxing_scan_log_bounded _ cmp _ _ _ es
      | some rhs => exact prim_scan_log_bounded _ es _ hstop _ _
    | unset => rfl

end JL
